import Mathlib

/-!
Shallow embedding of `src/python/MRzeroCore/sequence.py` (MRzero-Core):
RF pulses, repetitions, sequences, k-space trajectory reconstruction and
sequence chaining. Tensor entries are modelled as rationals, contrast
tags as integers. Python operations that can raise an exception are
modelled as `Option`-valued functions returning `none` on the error path.
-/

set_option autoImplicit false

namespace MRzero

/-- Enumerates all pulse usages (`PulseUsage` in the source). -/
inductive PulseUsage
  | UNDEF
  | EXCIT
  | REFOC
  | STORE
  | FATSAT
  deriving DecidableEq

/-- A Python value held in `Pulse.angle` / `Pulse.phase`: either a raw
Python float or a torch scalar tensor.  `Pulse.__init__` stores whatever
it is given without converting floats to tensors, so both cases occur. -/
inductive TorchScalar
  | pyfloat (val : ℚ)
  | tensor (val : ℚ)
  deriving DecidableEq

/-- Definition of an instantaneous RF pulse (`Pulse` in the source). -/
structure Pulse where
  usage : PulseUsage
  angle : TorchScalar
  phase : TorchScalar
  selective : Bool
  deriving DecidableEq

/-- `Pulse.zero()`: `Pulse(PulseUsage.UNDEF, 0.0, 0.0, True)`.  The angle
and phase are Python floats, stored unconverted by `__init__`. -/
def Pulse.zero : Pulse :=
  ⟨PulseUsage.UNDEF, TorchScalar.pyfloat 0, TorchScalar.pyfloat 0, true⟩

/-- `.clone()` on an angle/phase value: succeeds on a torch tensor
(producing an equal-valued copy), raises `AttributeError` on a raw
Python float, which has no `clone` method. -/
def TorchScalar.clone? : TorchScalar → Option TorchScalar
  | TorchScalar.tensor v => some (TorchScalar.tensor v)
  | TorchScalar.pyfloat _ => none

/-- `Pulse.clone()`: `Pulse(self.usage, self.angle.clone(),
self.phase.clone(), self.selective)`. -/
def Pulse.clone? (p : Pulse) : Option Pulse :=
  match p.angle.clone?, p.phase.clone? with
  | some a, some ph => some ⟨p.usage, a, ph, p.selective⟩
  | _, _ => none

/-- A repetition: one RF pulse plus a per-event timeline (`Repetition` in
the source).  `gradm` rows are 3-component gradient moments. -/
structure Repetition where
  pulse : Pulse
  event_time : List ℚ
  gradm : List (ℚ × ℚ × ℚ)
  adc_phase : List ℚ
  adc_usage : List Int
  deriving DecidableEq

/-- Shape consistency of a repetition's timelines, guaranteed by
`Repetition.__init__` for every successfully constructed repetition. -/
def Repetition.wf (r : Repetition) : Prop :=
  r.event_time ≠ [] ∧
  r.gradm.length = r.event_time.length ∧
  r.adc_phase.length = r.event_time.length ∧
  r.adc_usage.length = r.event_time.length

instance (r : Repetition) : Decidable r.wf := by
  unfold Repetition.wf
  exact inferInstance

/-- `Repetition.clone()`: clones the pulse (which can raise) and the four
timeline tensors (value-preserving). -/
def Repetition.clone? (r : Repetition) : Option Repetition :=
  (r.pulse.clone?).map (fun p => { r with pulse := p })

/-- `Repetition.shift_contrasts(offset)`:
`self.adc_usage[self.adc_usage > 0] += offset`. -/
def Repetition.shift_contrasts (r : Repetition) (offset : Int) : Repetition :=
  { r with adc_usage := r.adc_usage.map (fun u => if 0 < u then u + offset else u) }

/-- `Repetition.get_contrasts()`: `sorted(torch.unique(self.adc_usage).tolist())`,
the sorted list of distinct `adc_usage` values. -/
def Repetition.get_contrasts (r : Repetition) : List Int :=
  (r.adc_usage.dedup).insertionSort (· ≤ ·)

/-- A `Sequence` is an ordered list of repetitions (the source subclasses
the Python `list`). -/
abbrev Sequence := List Repetition

/-- `Sequence.clone()`: `Sequence(rep.clone() for rep in self)`; the
per-repetition clone errors propagate. -/
def Sequence.clone? : Sequence → Option Sequence
  | [] => some []
  | r :: rest =>
    match r.clone?, Sequence.clone? rest with
    | some rc, some restc => some (rc :: restc)
    | _, _ => none

/-- `Sequence.shift_contrasts(offset)`: shifts every repetition. -/
def Sequence.shift_contrasts (s : Sequence) (offset : Int) : Sequence :=
  s.map (fun r => r.shift_contrasts offset)

/-- `Sequence.get_contrasts()`: `sorted(set(c for rep in self for c in
rep.get_contrasts()))`. -/
def Sequence.get_contrasts (s : Sequence) : List Int :=
  ((s.flatMap (fun r => r.get_contrasts)).dedup).insertionSort (· ≤ ·)

/-- A point of the 4-dimensional k-space trajectory: three spatial
components plus the dephasing-time component. -/
abbrev Vec4 := ℚ × ℚ × ℚ × ℚ

/-- Inclusive cumulative sum (`torch.cumsum(_, dim=0)`) starting from a
carried accumulator. -/
def cumsumFrom (acc : Vec4) : List Vec4 → List Vec4
  | [] => []
  | x :: xs => (acc + x) :: cumsumFrom (acc + x) xs

/-- Inclusive cumulative sum of a list of 4-vectors. -/
def cumsum (l : List Vec4) : List Vec4 :=
  cumsumFrom 0 l

/-- The per-event 4-vector deltas of a repetition:
`torch.cat([rep.gradm, rep.event_time[:, None]], 1)`. -/
def Repetition.deltas (r : Repetition) : List Vec4 :=
  List.zipWith (fun g t => (g.1, g.2.1, g.2.2, t)) r.gradm r.event_time

/-- The pulse-usage dispatch of `Sequence.get_full_kspace`: given the
carried-in `(k_pos, stored)` state, returns the adjusted state. -/
def usageAdjust (usage : PulseUsage) (k stored : Vec4) : Vec4 × Vec4 :=
  match usage with
  | PulseUsage.EXCIT => (stored, stored)
  | PulseUsage.REFOC => (-k, stored)
  | PulseUsage.STORE => (k, k)
  | _ => (k, stored)

/-- The loop body of `Sequence.get_full_kspace`, threading `(k_pos, stored)`
through the repetitions and collecting each repetition's trajectory. -/
def fullKspaceGo (k stored : Vec4) : List Repetition → List (List Vec4)
  | [] => []
  | rep :: rest =>
    let ks := usageAdjust rep.pulse.usage k stored
    let rep_traj := (cumsum rep.deltas).map (fun d => ks.1 + d)
    rep_traj :: fullKspaceGo (rep_traj.getLastD ks.1) ks.2 rest

/-- `Sequence.get_full_kspace()`.  On a sequence with zero repetitions the
initial `torch.zeros(4, device=self.device)` raises (reading
`self.device` indexes `self[0]`), modelled as `none`. -/
def Sequence.get_full_kspace (s : Sequence) : Option (List (List Vec4)) :=
  if s.isEmpty then none else some (fullKspaceGo 0 0 s)

/-- Boolean-mask selection `shot[rep.adc_usage > 0]`. -/
def maskAdc (shot : List Vec4) (usage : List Int) : List Vec4 :=
  (List.zip shot usage).filterMap (fun p => if 0 < p.2 then some p.1 else none)

/-- `Sequence.get_kspace()`: the full k-space masked to measured events
and concatenated; the `get_full_kspace` failure on an empty sequence
propagates. -/
def Sequence.get_kspace (s : Sequence) : Option (List Vec4) :=
  (Sequence.get_full_kspace s).map
    (fun full => (List.zipWith (fun shot r => maskAdc shot r.adc_usage) full s).flatten)

/-- `Sequence.get_contrast_mask(contrast)`:
`torch.cat([rep.adc_usage[rep.adc_usage != 0] == contrast for rep in self])`;
`torch.cat` of an empty list (zero repetitions) raises, modelled as `none`. -/
def Sequence.get_contrast_mask (contrast : Int) (s : Sequence) : Option (List Bool) :=
  if s.isEmpty then none
  else some ((s.map (fun r =>
    (r.adc_usage.filter (fun u => u != 0)).map (fun u => u == contrast))).flatten)

/-- Python's `max` over a list: raises `ValueError` on an empty list,
modelled as `none`. -/
def pymax : List Int → Option Int
  | [] => none
  | x :: xs => some (xs.foldl max x)

/-- The loop of `chain(*sequences, oneshot)`, carrying the running
`contrast_offset` and collecting the shifted clone of each input sequence
(the source appends their repetitions to `combined` in order). -/
def chainGo (oneshot : Bool) (offset : Int) : List Sequence → Option (List Sequence)
  | [] => some []
  | s :: rest =>
    match Sequence.clone? s with
    | none => none
    | some cl =>
      let temp := Sequence.shift_contrasts cl offset
      if oneshot then
        match chainGo oneshot offset rest with
        | none => none
        | some segs => some (temp :: segs)
      else
        match pymax (Sequence.get_contrasts temp) with
        | none => none
        | some m =>
          match chainGo oneshot m rest with
          | none => none
          | some segs => some (temp :: segs)

/-- `chain(*sequences, oneshot)`: the concatenation of the shifted clones. -/
def chain (oneshot : Bool) (seqs : List Sequence) : Option Sequence :=
  (chainGo oneshot 0 seqs).map List.flatten

/-- A torch tensor, modelled by its shape and flat (row-major) data. -/
structure Tensor (α : Type) where
  shape : List Nat
  data : List α
  deriving DecidableEq

/-- `Tensor.numel()`: the product of the shape. -/
def Tensor.numel {α : Type} (t : Tensor α) : Nat :=
  t.shape.prod

/-- Reassemble the flat data of an (N, 3) tensor into its rows. -/
def chunk3 : List ℚ → List (ℚ × ℚ × ℚ)
  | a :: b :: c :: rest => (a, b, c) :: chunk3 rest
  | _ => []

/-- `Repetition.__init__`: validates the tensor shapes in source order and
constructs the repetition, or raises `ValueError` (`none`). -/
def mkRepetition (pulse : Pulse) (event_time gradm adc_phase : Tensor ℚ)
    (adc_usage : Tensor Int) : Option Repetition :=
  if event_time.numel = 0 then none
  else if event_time.shape ≠ [event_time.numel] then none
  else if gradm.shape ≠ [event_time.numel, 3] then none
  else if adc_phase.shape ≠ [event_time.numel] then none
  else if adc_usage.shape ≠ [event_time.numel] then none
  else some ⟨pulse, event_time.data, chunk3 gradm.data, adc_phase.data, adc_usage.data⟩

/-- Reference form of a repetition's trajectory, following the claim's
wording: the i-th entry is the carried-in position plus the inclusive sum
of the first i+1 per-event deltas. -/
def specTrajectory (k : Vec4) (deltas : List Vec4) : List Vec4 :=
  (List.range deltas.length).map (fun i => k + ((deltas.take (i + 1)).sum))

/-- Reference form of the pulse-usage dispatch, following the claim's
wording: EXCIT resets to `stored`, REFOC negates, STORE snapshots,
UNDEF/FATSAT change nothing. -/
def specAdjust (usage : PulseUsage) (k stored : Vec4) : Vec4 × Vec4 :=
  match usage with
  | PulseUsage.EXCIT => (stored, stored)
  | PulseUsage.REFOC => (-k, stored)
  | PulseUsage.STORE => (k, k)
  | PulseUsage.UNDEF => (k, stored)
  | PulseUsage.FATSAT => (k, stored)

/-- Reference recurrence for the full k-space computation, following the
claim's wording, to be compared with `fullKspaceGo`. -/
def specFullGo (k stored : Vec4) : List Repetition → List (List Vec4)
  | [] => []
  | rep :: rest =>
    let p := specAdjust rep.pulse.usage k stored
    let traj := specTrajectory p.1 rep.deltas
    traj :: specFullGo (traj.getLastD p.1) p.2 rest

/-- Reference full k-space of a sequence, starting from the all-zero
`k_pos` and `stored` state. -/
def specFullKspace (s : Sequence) : List (List Vec4) :=
  specFullGo 0 0 s

/-- Reference measured k-space: each repetition's full trajectory
restricted to events with positive `adc_usage`, concatenated in order. -/
def specKspace (s : Sequence) : List Vec4 :=
  (List.zipWith (fun traj r => maskAdc traj r.adc_usage) (specFullKspace s) s).flatten

/-- Total number of events with `adc_usage > 0` across all repetitions. -/
def countMeasured (s : Sequence) : Nat :=
  (s.map (fun r => r.adc_usage.countP (fun u => decide (0 < u)))).sum

/-- A contrast tag `u` is a positive `adc_usage` value occurring somewhere
in the sequence. -/
def posIn (u : Int) (s : Sequence) : Prop :=
  0 < u ∧ ∃ r ∈ s, u ∈ r.adc_usage

/-- Two sequences have no common positive contrast tag. -/
def contrastDisjoint (a b : Sequence) : Prop :=
  ∀ u : Int, posIn u a → ¬ posIn u b

/-! ### Lemmas about the trajectory recurrence -/

theorem cumsumFrom_eq (l : List Vec4) : ∀ acc : Vec4,
    cumsumFrom acc l = (List.range l.length).map (fun i => acc + (l.take (i + 1)).sum) := by
  induction l with
  | nil => intro acc; rfl
  | cons x xs ih =>
    intro acc
    simp only [cumsumFrom, List.length_cons, List.range_succ_eq_map, List.map_cons,
      List.map_map, ih (acc + x)]
    refine List.cons_eq_cons.mpr ⟨by simp, ?_⟩
    apply List.map_congr_left
    intro i _
    simp [Function.comp, List.take_succ_cons, add_assoc]

theorem map_add_cumsum (k : Vec4) (l : List Vec4) :
    (cumsum l).map (fun d => k + d) = specTrajectory k l := by
  simp [cumsum, cumsumFrom_eq, specTrajectory, List.map_map, Function.comp]

theorem specAdjust_eq (u : PulseUsage) (k stored : Vec4) :
    specAdjust u k stored = usageAdjust u k stored := by
  cases u <;> rfl

theorem fullKspaceGo_eq_spec (s : List Repetition) : ∀ k stored : Vec4,
    fullKspaceGo k stored s = specFullGo k stored s := by
  induction s with
  | nil => intro k stored; rfl
  | cons rep rest ih =>
    intro k stored
    simp only [fullKspaceGo, specFullGo, specAdjust_eq, map_add_cumsum, ih]

theorem specTrajectory_length (k : Vec4) (l : List Vec4) :
    (specTrajectory k l).length = l.length := by
  simp [specTrajectory]

theorem specFullGo_length (s : List Repetition) : ∀ k stored : Vec4,
    (specFullGo k stored s).length = s.length := by
  induction s with
  | nil => intro _ _; rfl
  | cons rep rest ih => intro k stored; simp [specFullGo, ih]

theorem deltas_length_of_wf {r : Repetition} (h : r.wf) :
    r.deltas.length = r.event_time.length := by
  obtain ⟨-, hg, -, -⟩ := h
  simp [Repetition.deltas, List.length_zipWith, hg]

theorem maskAdc_cons (v : Vec4) (vs : List Vec4) (u : Int) (us : List Int) :
    maskAdc (v :: vs) (u :: us) = if 0 < u then v :: maskAdc vs us else maskAdc vs us := by
  by_cases hu : 0 < u <;>
    simp [maskAdc, List.zip_cons_cons, List.filterMap_cons, hu]

theorem maskAdc_length (vs : List Vec4) : ∀ us : List Int, vs.length = us.length →
    (maskAdc vs us).length = us.countP (fun u => decide (0 < u)) := by
  induction vs with
  | nil =>
    intro us h
    cases us with
    | nil => rfl
    | cons u us => simp at h
  | cons v vs ih =>
    intro us h
    cases us with
    | nil => simp at h
    | cons u us =>
      simp only [List.length_cons, Nat.add_right_cancel_iff] at h
      rw [maskAdc_cons, List.countP_cons]
      by_cases hu : 0 < u
      · simp [hu, ih us h]
      · simp [hu, ih us h]

theorem zipMask_lengths (s : List Repetition) : ∀ k stored : Vec4, (∀ r ∈ s, r.wf) →
    (List.zipWith (fun traj r => maskAdc traj r.adc_usage) (specFullGo k stored s) s).map
      List.length = s.map (fun r => r.adc_usage.countP (fun u => decide (0 < u))) := by
  induction s with
  | nil => intro _ _ _; rfl
  | cons rep rest ih =>
    intro k stored hwf
    have hrep := hwf rep (List.mem_cons_self rep rest)
    have hlen : (specTrajectory (specAdjust rep.pulse.usage k stored).1 rep.deltas).length
        = rep.adc_usage.length := by
      rw [specTrajectory_length, deltas_length_of_wf hrep, hrep.2.2.2]
    simp only [specFullGo, List.zipWith_cons_cons, List.map_cons]
    refine List.cons_eq_cons.mpr ⟨?_, ?_⟩
    · exact maskAdc_length _ _ hlen
    · exact ih _ _ (fun r hr => hwf r (List.mem_cons_of_mem _ hr))

/-! ### Lemmas about contrast bookkeeping -/

theorem foldl_max_le (xs : List Int) : ∀ a : Int,
    a ≤ xs.foldl max a ∧ ∀ u ∈ xs, u ≤ xs.foldl max a := by
  induction xs with
  | nil => intro a; exact ⟨le_refl a, by simp⟩
  | cons x xs ih =>
    intro a
    refine ⟨le_trans (le_max_left a x) (ih (max a x)).1, ?_⟩
    intro u hu
    rcases List.mem_cons.mp hu with h | h
    · rw [h]
      exact le_trans (le_max_right a x) (ih (max a x)).1
    · exact (ih (max a x)).2 u h

theorem le_pymax {l : List Int} {m : Int} (hm : pymax l = some m) : ∀ u ∈ l, u ≤ m := by
  cases l with
  | nil => cases hm
  | cons x xs =>
    simp only [pymax, Option.some.injEq] at hm
    subst hm
    intro u hu
    rcases List.mem_cons.mp hu with h | h
    · rw [h]
      exact (foldl_max_le xs x).1
    · exact (foldl_max_le xs x).2 u h

theorem pymax_isSome {l : List Int} (h : l ≠ []) : (pymax l).isSome := by
  cases l with
  | nil => exact absurd rfl h
  | cons x xs => rfl

theorem mem_rep_get_contrasts {u : Int} {r : Repetition} :
    u ∈ r.get_contrasts ↔ u ∈ r.adc_usage := by
  unfold Repetition.get_contrasts
  rw [(List.perm_insertionSort _ _).mem_iff, List.mem_dedup]

theorem mem_seq_get_contrasts {u : Int} {s : Sequence} :
    u ∈ Sequence.get_contrasts s ↔ ∃ r ∈ s, u ∈ r.adc_usage := by
  unfold Sequence.get_contrasts
  rw [(List.perm_insertionSort _ _).mem_iff, List.mem_dedup, List.mem_flatMap]
  constructor
  · rintro ⟨r, hr, hu⟩
    exact ⟨r, hr, mem_rep_get_contrasts.mp hu⟩
  · rintro ⟨r, hr, hu⟩
    exact ⟨r, hr, mem_rep_get_contrasts.mpr hu⟩

theorem seq_get_contrasts_eq_nil {s : Sequence} :
    Sequence.get_contrasts s = [] ↔ ∀ r ∈ s, r.adc_usage = [] := by
  rw [List.eq_nil_iff_forall_not_mem]
  constructor
  · intro h r hr
    rw [List.eq_nil_iff_forall_not_mem]
    intro u hu
    exact h u (mem_seq_get_contrasts.mpr ⟨r, hr, hu⟩)
  · intro h u hu
    obtain ⟨r, hr, hu'⟩ := mem_seq_get_contrasts.mp hu
    rw [h r hr] at hu'
    cases hu'

theorem shift_adc_usage (r : Repetition) (o : Int) :
    (r.shift_contrasts o).adc_usage
      = r.adc_usage.map (fun u => if 0 < u then u + o else u) := rfl

theorem seq_contrasts_shift_nil {s : Sequence} {o : Int} :
    Sequence.get_contrasts (Sequence.shift_contrasts s o) = []
      ↔ Sequence.get_contrasts s = [] := by
  simp only [seq_get_contrasts_eq_nil, Sequence.shift_contrasts]
  constructor
  · intro h r hr
    have := h (r.shift_contrasts o) (List.mem_map_of_mem _ hr)
    rw [shift_adc_usage, List.map_eq_nil_iff] at this
    exact this
  · intro h r' hr'
    obtain ⟨r, hr, rfl⟩ := List.mem_map.mp hr'
    rw [shift_adc_usage, List.map_eq_nil_iff]
    exact h r hr

theorem posIn_shift {u o : Int} {s : Sequence} (ho : 0 ≤ o) :
    posIn u (Sequence.shift_contrasts s o) ↔ ∃ v, posIn v s ∧ u = v + o := by
  unfold posIn Sequence.shift_contrasts
  constructor
  · rintro ⟨hu, r', hr', hmem⟩
    obtain ⟨r, hr, rfl⟩ := List.mem_map.mp hr'
    rw [shift_adc_usage] at hmem
    obtain ⟨v, hv, hgv⟩ := List.mem_map.mp hmem
    by_cases hv0 : 0 < v
    · rw [if_pos hv0] at hgv
      exact ⟨v, ⟨hv0, r, hr, hv⟩, hgv.symm⟩
    · rw [if_neg hv0] at hgv
      subst hgv
      exact absurd hu hv0
  · rintro ⟨v, ⟨hv0, r, hr, hv⟩, rfl⟩
    refine ⟨by omega, r.shift_contrasts o, List.mem_map_of_mem _ hr, ?_⟩
    rw [shift_adc_usage]
    have : (fun x : Int => if 0 < x then x + o else x) v = v + o := if_pos hv0
    exact this ▸ List.mem_map_of_mem _ hv

/-! ### Lemmas about cloning -/

theorem pulse_clone_self {p : Pulse} (h : (Pulse.clone? p).isSome) :
    Pulse.clone? p = some p := by
  obtain ⟨usage, angle, phase, sel⟩ := p
  cases angle <;> cases phase <;>
    simp_all [Pulse.clone?, TorchScalar.clone?]

theorem rep_clone_self {r : Repetition} (h : (Pulse.clone? r.pulse).isSome) :
    Repetition.clone? r = some r := by
  unfold Repetition.clone?
  rw [pulse_clone_self h]
  rfl

theorem seq_clone_self {s : Sequence} (h : ∀ r ∈ s, (Pulse.clone? r.pulse).isSome) :
    Sequence.clone? s = some s := by
  induction s with
  | nil => rfl
  | cons r rest ih =>
    unfold Sequence.clone?
    rw [rep_clone_self (h r (List.mem_cons_self r rest)),
      ih (fun r' hr' => h r' (List.mem_cons_of_mem _ hr'))]

/-! ### Lemmas about chaining -/

theorem chainGo_nocollide : ∀ (seqs : List Sequence) (o : Int), 0 ≤ o →
    (∀ s ∈ seqs, ∀ r ∈ s, (Pulse.clone? r.pulse).isSome) →
    (∀ s ∈ seqs, ∃ u, posIn u s) →
    ∃ segs, chainGo false o seqs = some segs ∧
      List.Pairwise contrastDisjoint segs ∧
      ∀ seg ∈ segs, ∀ u, posIn u seg → o < u := by
  intro seqs
  induction seqs with
  | nil =>
    intro o _ _ _
    exact ⟨[], rfl, List.Pairwise.nil, by simp⟩
  | cons s rest ih =>
    intro o ho hclone hpos
    have hcl : Sequence.clone? s = some s :=
      seq_clone_self (hclone s (List.mem_cons_self s rest))
    set temp := Sequence.shift_contrasts s o with htemp
    obtain ⟨v0, hv0⟩ := hpos s (List.mem_cons_self s rest)
    have hv0pos : posIn (v0 + o) temp := (posIn_shift ho).mpr ⟨v0, hv0, rfl⟩
    have hne : Sequence.get_contrasts temp ≠ [] := by
      intro hnil
      obtain ⟨-, r, hr, hmem⟩ := hv0pos
      rw [seq_get_contrasts_eq_nil] at hnil
      rw [hnil r hr] at hmem
      cases hmem
    obtain ⟨m, hm⟩ := Option.isSome_iff_exists.mp (pymax_isSome hne)
    have hbound : ∀ u, posIn u temp → u ≤ m := by
      intro u hu
      obtain ⟨-, r, hr, hmem⟩ := hu
      exact le_pymax hm u (mem_seq_get_contrasts.mpr ⟨r, hr, hmem⟩)
    have hom : o < m := by
      have h1 : o < v0 + o := by
        have := hv0.1
        omega
      exact lt_of_lt_of_le h1 (hbound _ hv0pos)
    obtain ⟨segs, hsegs, hpair, hgt⟩ := ih m (by omega)
      (fun s' hs' => hclone s' (List.mem_cons_of_mem _ hs'))
      (fun s' hs' => hpos s' (List.mem_cons_of_mem _ hs'))
    refine ⟨temp :: segs, ?_, ?_, ?_⟩
    · unfold chainGo
      rw [hcl]
      simp only [Bool.false_eq_true, if_false, ← htemp, hm, hsegs]
    · refine List.Pairwise.cons ?_ hpair
      intro seg' hseg'
      intro u hu hpos'
      have h1 : u ≤ m := hbound u hu
      have h2 : m < u := hgt seg' hseg' u hpos'
      omega
    · intro seg hseg u hu
      rcases List.mem_cons.mp hseg with h | h
      · rw [h] at hu
        obtain ⟨v, hv, rfl⟩ := (posIn_shift ho).mp hu
        have := hv.1
        omega
      · exact lt_trans hom (hgt seg h u hu)

theorem chainGo_none_iff : ∀ (seqs : List Sequence) (o : Int),
    (∀ s ∈ seqs, ∀ r ∈ s, (Pulse.clone? r.pulse).isSome) →
    (chainGo false o seqs = none ↔ ∃ s ∈ seqs, Sequence.get_contrasts s = []) := by
  intro seqs
  induction seqs with
  | nil =>
    intro o _
    simp [chainGo]
  | cons s rest ih =>
    intro o hclone
    have hcl : Sequence.clone? s = some s :=
      seq_clone_self (hclone s (List.mem_cons_self s rest))
    by_cases hc : Sequence.get_contrasts s = []
    · have hnil : Sequence.get_contrasts (Sequence.shift_contrasts s o) = [] :=
        seq_contrasts_shift_nil.mpr hc
      constructor
      · intro _
        exact ⟨s, List.mem_cons_self s rest, hc⟩
      · intro _
        unfold chainGo
        rw [hcl]
        simp only [Bool.false_eq_true, if_false, hnil]
        rfl
    · have hne : Sequence.get_contrasts (Sequence.shift_contrasts s o) ≠ [] :=
        fun h => hc (seq_contrasts_shift_nil.mp h)
      obtain ⟨m, hm⟩ := Option.isSome_iff_exists.mp (pymax_isSome hne)
      have hrest := ih m (fun s' hs' => hclone s' (List.mem_cons_of_mem _ hs'))
      constructor
      · intro hnone
        unfold chainGo at hnone
        rw [hcl] at hnone
        simp only [Bool.false_eq_true, if_false, hm] at hnone
        cases hrec : chainGo false m rest with
        | none =>
          obtain ⟨s', hs', h'⟩ := hrest.mp hrec
          exact ⟨s', List.mem_cons_of_mem _ hs', h'⟩
        | some segs =>
          rw [hrec] at hnone
          cases hnone
      · rintro ⟨s', hs', h'⟩
        rcases List.mem_cons.mp hs' with h | hs''
        · rw [h] at h'
          exact absurd h' hc
        · unfold chainGo
          rw [hcl]
          simp only [Bool.false_eq_true, if_false, hm, hrest.mpr ⟨s', hs'', h'⟩]

/-! ### Lemmas about contrast shifting -/

theorem shift_contrasts_zero (r : Repetition) : r.shift_contrasts 0 = r := by
  obtain ⟨p, et, g, ap, au⟩ := r
  have hf : (fun u : Int => if 0 < u then u + 0 else u) = fun u => u := by
    funext u
    split <;> simp
  simp [Repetition.shift_contrasts, hf]

theorem shift_contrasts_comp (r : Repetition) (a b : Int) (ha : 0 ≤ a) :
    (r.shift_contrasts a).shift_contrasts b = r.shift_contrasts (a + b) := by
  obtain ⟨p, et, g, ap, au⟩ := r
  have hf : ((fun u : Int => if 0 < u then u + b else u) ∘ fun u : Int => if 0 < u then u + a else u)
      = fun u : Int => if 0 < u then u + (a + b) else u := by
    funext u
    by_cases hu : 0 < u
    · have hua : 0 < u + a := by omega
      simp [Function.comp, hu, hua, add_assoc]
    · simp [Function.comp, hu]
  simp [Repetition.shift_contrasts, List.map_map, hf]

/-! ### Lemmas about repetition construction -/

theorem numel_of_shape_single {α : Type} {t : Tensor α} {n : Nat} (h : t.shape = [n]) :
    t.numel = n := by
  simp [Tensor.numel, h]

theorem chunk3_length : ∀ (k : Nat) (l : List ℚ), l.length = 3 * k → (chunk3 l).length = k := by
  intro k
  induction k with
  | zero =>
    intro l hl
    rw [Nat.mul_zero, List.length_eq_zero] at hl
    subst hl
    rfl
  | succ k ih =>
    intro l hl
    cases l with
    | nil => simp at hl
    | cons a l1 =>
      cases l1 with
      | nil =>
        simp only [List.length_cons, List.length_nil] at hl
        omega
      | cons b l2 =>
        cases l2 with
        | nil =>
          simp only [List.length_cons, List.length_nil] at hl
          omega
        | cons c rest =>
          have hrest : rest.length = 3 * k := by
            simp only [List.length_cons] at hl
            omega
          simp only [chunk3, List.length_cons, ih rest hrest]

theorem mkRepetition_isSome_iff (p : Pulse) (et g ap : Tensor ℚ) (au : Tensor Int) :
    (mkRepetition p et g ap au).isSome ↔
      ∃ n : Nat, 1 ≤ n ∧ et.shape = [n] ∧ g.shape = [n, 3] ∧ ap.shape = [n] ∧ au.shape = [n] := by
  unfold mkRepetition
  split_ifs with h0 h1 h2 h3 h4
  · simp only [Option.isSome_none, Bool.false_eq_true, false_iff]
    rintro ⟨n, hn, hsh, -⟩
    rw [numel_of_shape_single hsh] at h0
    omega
  · simp only [Option.isSome_none, Bool.false_eq_true, false_iff]
    rintro ⟨n, hn, hsh, -⟩
    exact h1 (by rw [hsh, numel_of_shape_single hsh])
  · simp only [Option.isSome_none, Bool.false_eq_true, false_iff]
    rintro ⟨n, hn, hsh, hgsh, -⟩
    exact h2 (by rw [hgsh, numel_of_shape_single hsh])
  · simp only [Option.isSome_none, Bool.false_eq_true, false_iff]
    rintro ⟨n, hn, hsh, hgsh, hapsh, -⟩
    exact h3 (by rw [hapsh, numel_of_shape_single hsh])
  · simp only [Option.isSome_none, Bool.false_eq_true, false_iff]
    rintro ⟨n, hn, hsh, hgsh, hapsh, haush⟩
    exact h4 (by rw [haush, numel_of_shape_single hsh])
  · simp only [Option.isSome_some, true_iff]
    exact ⟨et.numel, by omega, not_not.mp h1, not_not.mp h2, not_not.mp h3, not_not.mp h4⟩

theorem mkRepetition_wf {p : Pulse} {et g ap : Tensor ℚ} {au : Tensor Int} {r : Repetition}
    (hr : mkRepetition p et g ap au = some r)
    (het : et.data.length = et.numel) (hg : g.data.length = g.numel)
    (hap : ap.data.length = ap.numel) (hau : au.data.length = au.numel) : r.wf := by
  unfold mkRepetition at hr
  split_ifs at hr with h0 h1 h2 h3 h4
  injection hr with hr
  subst hr
  have hgsh := not_not.mp h2
  have hglen : g.data.length = 3 * et.numel := by
    rw [hg]
    simp only [Tensor.numel, hgsh, List.prod_cons, List.prod_nil]
    ring
  refine ⟨?_, ?_, ?_, ?_⟩
  · intro hnil
    have hnil2 : et.data = [] := hnil
    rw [hnil2] at het
    simp only [List.length_nil] at het
    exact h0 het.symm
  · show (chunk3 g.data).length = et.data.length
    rw [chunk3_length et.numel g.data hglen, het]
  · show ap.data.length = et.data.length
    rw [hap, numel_of_shape_single (not_not.mp h3), het]
  · show au.data.length = et.data.length
    rw [hau, numel_of_shape_single (not_not.mp h4), het]

/-! ### Small helpers for the claim statements -/

instance (u : Int) (s : Sequence) : Decidable (posIn u s) := by
  unfold posIn
  exact inferInstance

theorem get_full_kspace_of_ne_nil {s : Sequence} (h : s ≠ []) :
    Sequence.get_full_kspace s = some (fullKspaceGo 0 0 s) := by
  unfold Sequence.get_full_kspace
  rw [if_neg]
  rw [List.isEmpty_iff]
  exact h

theorem get_contrast_mask_of_ne_nil {c : Int} {s : Sequence} (h : s ≠ []) :
    Sequence.get_contrast_mask c s
      = some ((s.map (fun r =>
          (r.adc_usage.filter (fun u => u != 0)).map (fun u => u == c))).flatten) := by
  unfold Sequence.get_contrast_mask
  rw [if_neg]
  rw [List.isEmpty_iff]
  exact h

theorem countP_ne_zero_eq_pos {l : List Int} (h : ∀ u ∈ l, 0 ≤ u) :
    l.countP (fun u => u != 0) = l.countP (fun u => decide (0 < u)) := by
  induction l with
  | nil => rfl
  | cons x xs ih =>
    have hx := h x (List.mem_cons_self x xs)
    rw [List.countP_cons, List.countP_cons, ih (fun u hu => h u (List.mem_cons_of_mem _ hu))]
    congr 1
    by_cases h0 : x = 0
    · subst h0
      simp
    · have hpos : 0 < x := by omega
      simp [h0, hpos]

/-! ### Concrete data used by the claim theorems -/

/-- An EXCIT pulse with tensor-valued angle and phase. -/
def excitPulse : Pulse :=
  ⟨PulseUsage.EXCIT, TorchScalar.tensor 0, TorchScalar.tensor 0, true⟩

/-- A STORE pulse with tensor-valued angle and phase. -/
def storePulse : Pulse :=
  ⟨PulseUsage.STORE, TorchScalar.tensor 0, TorchScalar.tensor 0, true⟩

/-- The example repetition of C1: `event_time=[1,1]`, `gradm=[[1,0,0],[1,0,0]]`,
EXCIT pulse. -/
def c1Rep : Repetition :=
  ⟨excitPulse, [1, 1], [(1, 0, 0), (1, 0, 0)], [0, 0], [0, 0]⟩

/-- A well-formed repetition with one measured event, for C2. -/
def c2Rep : Repetition :=
  ⟨excitPulse, [1, 1], [(1, 0, 0), (1, 0, 0)], [0, 0], [0, 1]⟩

/-- A repetition with a negative `adc_usage` entry, for C3. -/
def c3Rep : Repetition :=
  ⟨excitPulse, [1, 1], [(0, 0, 0), (0, 0, 0)], [0, 0], [-1, 1]⟩

/-- A well-formed repetition with only non-negative `adc_usage`, for C3. -/
def c3WitRep : Repetition :=
  ⟨excitPulse, [1, 1], [(0, 0, 0), (0, 0, 0)], [0, 0], [0, 1]⟩

/-- C4 counterexample, repetition 0: EXCIT with a nonzero gradient. -/
def c4Rep0 : Repetition := ⟨excitPulse, [1], [(1, 0, 0)], [0], [0]⟩

/-- C4 counterexample, repetition 1: STORE with a nonzero gradient. -/
def c4Rep1 : Repetition := ⟨storePulse, [1], [(1, 0, 0)], [0], [0]⟩

/-- C4 counterexample, repetition 2: EXCIT with a zero first event, so its
trajectory's first entry is exactly the offset added to its cumulative sums. -/
def c4Rep2 : Repetition := ⟨excitPulse, [0], [(0, 0, 0)], [0], [0]⟩

/-- The C4 counterexample sequence [EXCIT, STORE, EXCIT]. -/
def c4Seq : Sequence := [c4Rep0, c4Rep1, c4Rep2]

/-- A repetition with contrasts {1,3}, for the C5 example. -/
def c5RepA : Repetition :=
  ⟨excitPulse, [1, 1], [(0, 0, 0), (0, 0, 0)], [0, 0], [1, 3]⟩

/-- A repetition with contrast {2}, for the C5 example. -/
def c5RepB : Repetition := ⟨excitPulse, [1], [(0, 0, 0)], [0], [2]⟩

/-- `c5RepB` after shifting its contrast by 3. -/
def c5RepB5 : Repetition := ⟨excitPulse, [1], [(0, 0, 0)], [0], [5]⟩

/-- The C5 example sequence with contrasts {1,3}. -/
def c5SeqA : Sequence := [c5RepA]

/-- The C5 example sequence with contrast {2}. -/
def c5SeqB : Sequence := [c5RepB]

/-- A repetition tagged with contrast 1, for the C5 counterexample. -/
def c5RepOne : Repetition := ⟨excitPulse, [1], [(0, 0, 0)], [0], [1]⟩

/-- A repetition tagged 0 only (measures nothing), for the C5 counterexample. -/
def c5RepZero : Repetition := ⟨excitPulse, [1], [(0, 0, 0)], [0], [0]⟩

/-- A one-repetition sequence with contrast 1, for C6. -/
def c6Seq1 : Sequence := [⟨excitPulse, [1], [(0, 0, 0)], [0], [1]⟩]

/-- A repetition with a single entry 1, for C7. -/
def c7Rep : Repetition := ⟨excitPulse, [1], [(0, 0, 0)], [0], [1]⟩

/-! ### Claim theorems -/

/-- C1: for every nonempty sequence, `get_full_kspace` returns one
trajectory per repetition, computed by the reference recurrence: starting
from `k_pos = stored = 0`, each repetition first adjusts the carried-in
state by its pulse usage (EXCIT resets `k_pos` to `stored`, REFOC negates
`k_pos`, STORE snapshots `k_pos` into `stored`, UNDEF/FATSAT change
nothing), then its trajectory is `k_pos` plus the inclusive cumulative
sums of the gradient-moment/duration 4-vectors, and `k_pos` advances to
the trajectory's last entry; the single-EXCIT example with
`event_time=[1,1]`, `gradm=[[1,0,0],[1,0,0]]` yields
`[[1,0,0,1],[2,0,0,2]]`. -/
theorem c1_full_kspace_recurrence :
    (∀ s : Sequence, s ≠ [] → (∀ r ∈ s, r.wf) →
      Sequence.get_full_kspace s = some (specFullKspace s) ∧
      (specFullKspace s).length = s.length) ∧
    Sequence.get_full_kspace [c1Rep] = some [[(1, 0, 0, 1), (2, 0, 0, 2)]] := by
  constructor
  · intro s hs _
    constructor
    · rw [get_full_kspace_of_ne_nil hs, fullKspaceGo_eq_spec]
      rfl
    · rw [specFullKspace]
      exact specFullGo_length s 0 0
  · norm_num [Sequence.get_full_kspace, fullKspaceGo, cumsum, cumsumFrom,
      Repetition.deltas, usageAdjust, c1Rep, excitPulse, Prod.ext_iff]

/-- Witness for C1 at the concrete one-repetition example sequence. -/
theorem c1_full_kspace_recurrence_witness :
    Sequence.get_full_kspace [c1Rep] = some (specFullKspace [c1Rep]) ∧
    (specFullKspace [c1Rep]).length = List.length [c1Rep] :=
  c1_full_kspace_recurrence.1 [c1Rep] (by simp) (by decide)

/-- C2: for every nonempty sequence of well-formed repetitions,
`get_kspace` equals the concatenation, in order, of each repetition's
full trajectory restricted to events with `adc_usage > 0`, and its
length is the total count of such events. -/
theorem c2_kspace_measured :
    ∀ s : Sequence, s ≠ [] → (∀ r ∈ s, r.wf) →
      Sequence.get_kspace s = some (specKspace s) ∧
      (specKspace s).length = countMeasured s := by
  intro s hs hwf
  constructor
  · rw [Sequence.get_kspace, get_full_kspace_of_ne_nil hs, fullKspaceGo_eq_spec]
    rfl
  · rw [specKspace, specFullKspace, List.length_flatten, zipMask_lengths s 0 0 hwf,
      countMeasured]

/-- Witness for C2 at a concrete one-repetition sequence with one
measured event. -/
theorem c2_kspace_measured_witness :
    Sequence.get_kspace [c2Rep] = some (specKspace [c2Rep]) ∧
    (specKspace [c2Rep]).length = countMeasured [c2Rep] :=
  c2_kspace_measured [c2Rep] (by simp) (by decide)

/-- C3 counterexample: on a sequence whose repetition has
`adc_usage = [-1, 1]`, the contrast mask has length 2 (the `!= 0` filter
keeps the negative entry) while `get_kspace` has length 1 (the `> 0`
filter drops it), so the mask is not valid for indexing `get_kspace`'s
output, contradicting the claim. -/
theorem c3_counterexample :
    (Sequence.get_contrast_mask 1 [c3Rep]).map List.length = some 2 ∧
    (Sequence.get_kspace [c3Rep]).map List.length = some 1 ∧
    (Sequence.get_contrast_mask 1 [c3Rep]).map List.length
      ≠ (Sequence.get_kspace [c3Rep]).map List.length := by
  refine ⟨by decide, ?_, ?_⟩
  · norm_num [Sequence.get_kspace, Sequence.get_full_kspace, fullKspaceGo, cumsum,
      cumsumFrom, Repetition.deltas, usageAdjust, maskAdc, c3Rep, excitPulse,
      List.filterMap_cons]
  · intro h
    have h1 : (Sequence.get_contrast_mask 1 [c3Rep]).map List.length = some 2 := by decide
    have h2 : (Sequence.get_kspace [c3Rep]).map List.length = some 1 := by
      norm_num [Sequence.get_kspace, Sequence.get_full_kspace, fullKspaceGo, cumsum,
        cumsumFrom, Repetition.deltas, usageAdjust, maskAdc, c3Rep, excitPulse,
        List.filterMap_cons]
    rw [h1, h2] at h
    cases h

/-- C3 (amended): `get_contrast_mask c` is the concatenation over
repetitions of the booleans `== c` over entries with `adc_usage != 0`;
for every nonempty sequence of well-formed repetitions in which no event
has a negative `adc_usage`, its length equals the length of
`get_kspace`'s output (so it is valid for indexing it).  With negative
`adc_usage` entries the mask can be longer than the measured k-space. -/
theorem c3_amended :
    ∀ (c : Int) (s : Sequence), s ≠ [] → (∀ r ∈ s, r.wf) →
      (∀ r ∈ s, ∀ u ∈ r.adc_usage, 0 ≤ u) →
      (Sequence.get_contrast_mask c s).map List.length
        = (Sequence.get_kspace s).map List.length := by
  intro c s hs hwf hnn
  rw [get_contrast_mask_of_ne_nil hs, Sequence.get_kspace, get_full_kspace_of_ne_nil hs,
    fullKspaceGo_eq_spec]
  simp only [Option.map_some']
  congr 1
  rw [List.length_flatten, List.length_flatten, zipMask_lengths s 0 0 hwf, List.map_map]
  congr 1
  apply List.map_congr_left
  intro r hr
  simp only [Function.comp_apply, List.length_map, ← List.countP_eq_length_filter]
  exact countP_ne_zero_eq_pos (hnn r hr)

/-- Witness for the amended C3 at a concrete all-non-negative sequence. -/
theorem c3_amended_witness :
    (Sequence.get_contrast_mask 1 [c3WitRep]).map List.length
      = (Sequence.get_kspace [c3WitRep]).map List.length :=
  c3_amended 1 [c3WitRep] (by simp) (by decide) (by decide)

/-- C4 counterexample: in the sequence [EXCIT with gradient, STORE with
gradient, EXCIT], the position from which the third repetition starts
(the offset added to its cumulative sums; its first event is zero, so it
is its trajectory's first entry) equals repetition 0's final position
`(1,0,0,1)`, not repetition 1's final position `(2,0,0,2)` as the claim
states. -/
theorem c4_counterexample :
    Sequence.get_full_kspace c4Seq
      = some [[(1, 0, 0, 1)], [(2, 0, 0, 2)], [(1, 0, 0, 1)]] ∧
    ((fullKspaceGo 0 0 c4Seq).getD 2 []).headD 0
      = ((fullKspaceGo 0 0 c4Seq).getD 0 []).getLastD 0 ∧
    ((fullKspaceGo 0 0 c4Seq).getD 2 []).headD 0
      ≠ ((fullKspaceGo 0 0 c4Seq).getD 1 []).getLastD 0 := by
  refine ⟨?_, ?_, ?_⟩ <;>
    norm_num [Sequence.get_full_kspace, fullKspaceGo, cumsum, cumsumFrom,
      Repetition.deltas, usageAdjust, c4Seq, c4Rep0, c4Rep1, c4Rep2,
      excitPulse, storePulse, Prod.ext_iff]

/-- C4 (amended): for any [EXCIT, STORE, EXCIT] sequence, the STORE pulse
snapshots the position carried into repetition 1 — repetition 0's final
trajectory position — before repetition 1's own gradients are applied,
so both repetition 1's and repetition 2's trajectories are offset by
repetition 0's final position; repetition 2 starts from repetition 1's
final position only when repetition 1 contributes zero net 4-moment. -/
theorem c4_amended (r0 r1 r2 : Repetition)
    (h0 : r0.pulse.usage = PulseUsage.EXCIT)
    (h1 : r1.pulse.usage = PulseUsage.STORE)
    (h2 : r2.pulse.usage = PulseUsage.EXCIT)
    (_hw0 : r0.wf) (_hw1 : r1.wf) (_hw2 : r2.wf) :
    Sequence.get_full_kspace [r0, r1, r2] =
      some [cumsum r0.deltas,
        (cumsum r1.deltas).map (fun d => (cumsum r0.deltas).getLastD 0 + d),
        (cumsum r2.deltas).map (fun d => (cumsum r0.deltas).getLastD 0 + d)] := by
  rw [get_full_kspace_of_ne_nil (by simp)]
  simp [fullKspaceGo, usageAdjust, h0, h1, h2]

/-- Witness for the amended C4 at the concrete [EXCIT, STORE, EXCIT]
sequence. -/
theorem c4_amended_witness :
    Sequence.get_full_kspace c4Seq =
      some [cumsum c4Rep0.deltas,
        (cumsum c4Rep1.deltas).map (fun d => (cumsum c4Rep0.deltas).getLastD 0 + d),
        (cumsum c4Rep2.deltas).map (fun d => (cumsum c4Rep0.deltas).getLastD 0 + d)] :=
  c4_amended c4Rep0 c4Rep1 c4Rep2 rfl rfl rfl (by decide) (by decide) (by decide)

/-- C5 counterexample: chaining [tags {1}], [tags {0}], [tags {1}] without
oneshot sets the running offset to max {0} = 0 after the middle sequence,
so the third sequence is not shifted and its contrast 1 collides with the
first sequence's contrast 1: the produced segments are not pairwise
contrast-disjoint, contradicting the claim's "never collide". -/
theorem c5_counterexample :
    chainGo false 0 [[c5RepOne], [c5RepZero], [c5RepOne]]
      = some [[c5RepOne], [c5RepZero], [c5RepOne]] ∧
    ¬ List.Pairwise contrastDisjoint [[c5RepOne], [c5RepZero], [c5RepOne]] := by
  constructor
  · decide
  · intro hpw
    have hp : posIn 1 [c5RepOne] := by decide
    have hd : contrastDisjoint [c5RepOne] [c5RepOne] :=
      (List.pairwise_cons.mp hpw).1 [c5RepOne] (by simp)
    exact hd 1 hp hp

/-- C5 (amended): `chain` without oneshot concatenates clones of the
inputs' repetitions in call order, shifting positive tags by the running
offset and updating the offset to the maximum tag of the just-shifted
sequence; the example {1,3} + {2} yields contrasts {1,3,5}; and the
contrasts of distinct chained sequences never collide provided every
chained sequence contains at least one positive contrast tag (with a
sequence of no positive tags the offset can decrease and collisions
occur).  Inputs are cloned before shifting, hence never mutated. -/
theorem c5_amended :
    (chain false [c5SeqA, c5SeqB] = some [c5RepA, c5RepB5] ∧
      Sequence.get_contrasts [c5RepA, c5RepB5] = [1, 3, 5]) ∧
    ∀ seqs : List Sequence,
      (∀ s ∈ seqs, ∀ r ∈ s, (Pulse.clone? r.pulse).isSome) →
      (∀ s ∈ seqs, ∃ u, posIn u s) →
      ∃ segs, chainGo false 0 seqs = some segs ∧
        chain false seqs = some segs.flatten ∧
        List.Pairwise contrastDisjoint segs := by
  constructor
  · exact ⟨by decide, by decide⟩
  · intro seqs hclone hpos
    obtain ⟨segs, hsegs, hpair, -⟩ :=
      chainGo_nocollide seqs 0 (le_refl 0) hclone hpos
    refine ⟨segs, hsegs, ?_, hpair⟩
    rw [chain, hsegs]
    rfl

/-- Witness for the amended C5 at the concrete {1,3} + {2} example. -/
theorem c5_amended_witness :
    ∃ segs, chainGo false 0 [c5SeqA, c5SeqB] = some segs ∧
      chain false [c5SeqA, c5SeqB] = some segs.flatten ∧
      List.Pairwise contrastDisjoint segs :=
  c5_amended.2 [c5SeqA, c5SeqB] (by decide)
    (by
      intro s hs
      rcases List.mem_cons.mp hs with h | h
      · exact ⟨1, by rw [h]; decide⟩
      · have h2 : s = c5SeqB := by simpa using h
        exact ⟨2, by rw [h2]; decide⟩)

/-- C6 counterexample: chaining a sequence with an empty contrast list (a
sequence with zero repetitions) without oneshot computes the maximum of
an empty list, which raises and propagates (`none`): the operation is
not treated as a no-op and the error reaches the caller, contradicting
the claim. -/
theorem c6_counterexample :
    chain false [c6Seq1, ([] : Sequence)] = none ∧
    chain false [([] : Sequence)] = none := by
  exact ⟨by decide, by decide⟩

/-- C6 (amended): `chain` without oneshot fails exactly when some input
sequence has an empty contrast list (given cloneable pulses); the
"max of empty" error is propagated to the caller rather than treated as
a no-op with an unchanged offset. -/
theorem c6_amended :
    ∀ seqs : List Sequence,
      (∀ s ∈ seqs, ∀ r ∈ s, (Pulse.clone? r.pulse).isSome) →
      (chain false seqs = none ↔ ∃ s ∈ seqs, Sequence.get_contrasts s = []) := by
  intro seqs hclone
  constructor
  · intro h
    apply (chainGo_none_iff seqs 0 hclone).mp
    cases hx : chainGo false 0 seqs with
    | none => rfl
    | some v =>
      rw [chain, hx] at h
      cases h
  · intro hex
    rw [chain, (chainGo_none_iff seqs 0 hclone).mpr hex]
    rfl

/-- Witness for the amended C6: a single empty sequence makes `chain`
fail. -/
theorem c6_amended_witness :
    chain false [([] : Sequence)] = none :=
  (c6_amended [([] : Sequence)] (by decide)).mpr
    ⟨[], List.mem_cons_self _ _, rfl⟩

/-- C7 counterexample: on `adc_usage = [1]` (entry > 0 before either
call), shifting by -1 then by 1 yields 0, while the single shift by
-1 + 1 = 0 keeps 1: the claimed composition law fails for a negative
first offset. -/
theorem c7_counterexample :
    c7Rep.adc_usage = [1] ∧
    (Repetition.shift_contrasts (Repetition.shift_contrasts c7Rep (-1)) 1).adc_usage = [0] ∧
    (Repetition.shift_contrasts c7Rep (-1 + 1)).adc_usage = [1] ∧
    Repetition.shift_contrasts (Repetition.shift_contrasts c7Rep (-1)) 1
      ≠ Repetition.shift_contrasts c7Rep (-1 + 1) := by
  exact ⟨by decide, by decide, by decide, by decide⟩

/-- C7 (amended): `shift_contrasts 0` is the identity, and shifting by
`a` then `b` equals the single shift by `a + b` whenever `a ≥ 0` (so
that no positive entry is pushed to `≤ 0` between the two calls). -/
theorem c7_amended :
    (∀ r : Repetition, r.shift_contrasts 0 = r) ∧
    ∀ (r : Repetition) (a b : Int), 0 ≤ a →
      (r.shift_contrasts a).shift_contrasts b = r.shift_contrasts (a + b) :=
  ⟨shift_contrasts_zero, fun r a b ha => shift_contrasts_comp r a b ha⟩

/-- Witness for the amended C7 at concrete offsets 1 and 2. -/
theorem c7_amended_witness :
    Repetition.shift_contrasts (Repetition.shift_contrasts c7Rep 1) 2
      = Repetition.shift_contrasts c7Rep (1 + 2) :=
  c7_amended.2 c7Rep 1 2 (by norm_num)

/-- C8: `Repetition.__init__` succeeds iff `event_time` has shape `[n]`
with `n ≥ 1`, `gradm` has shape `[n, 3]`, and `adc_phase` / `adc_usage`
have shape `[n]`; and every repetition it constructs (from well-formed
tensors, whose flat data has `numel` elements) has consistent timeline
lengths. -/
theorem c8_construction :
    (∀ (p : Pulse) (et g ap : Tensor ℚ) (au : Tensor Int),
      (mkRepetition p et g ap au).isSome ↔
        ∃ n : Nat, 1 ≤ n ∧ et.shape = [n] ∧ g.shape = [n, 3] ∧
          ap.shape = [n] ∧ au.shape = [n]) ∧
    ∀ (p : Pulse) (et g ap : Tensor ℚ) (au : Tensor Int) (r : Repetition),
      mkRepetition p et g ap au = some r →
      et.data.length = et.numel → g.data.length = g.numel →
      ap.data.length = ap.numel → au.data.length = au.numel → r.wf :=
  ⟨mkRepetition_isSome_iff,
    fun _ _ _ _ _ _ hr het hg hap hau => mkRepetition_wf hr het hg hap hau⟩

/-- Witness for C8 at concrete well-shaped tensors with n = 2. -/
theorem c8_construction_witness :
    (mkRepetition Pulse.zero ⟨[2], [1, 1]⟩ ⟨[2, 3], [1, 0, 0, 1, 0, 0]⟩
        ⟨[2], [0, 0]⟩ ⟨[2], [0, 1]⟩).isSome ∧
    Repetition.wf ⟨Pulse.zero, [1, 1], [(1, 0, 0), (1, 0, 0)], [0, 0], [0, 1]⟩ := by
  constructor
  · exact (c8_construction.1 Pulse.zero ⟨[2], [1, 1]⟩ ⟨[2, 3], [1, 0, 0, 1, 0, 0]⟩
      ⟨[2], [0, 0]⟩ ⟨[2], [0, 1]⟩).mpr ⟨2, by norm_num, rfl, rfl, rfl, rfl⟩
  · exact c8_construction.2 Pulse.zero ⟨[2], [1, 1]⟩ ⟨[2, 3], [1, 0, 0, 1, 0, 0]⟩
      ⟨[2], [0, 0]⟩ ⟨[2], [0, 1]⟩ _ (by decide) rfl rfl rfl rfl

/-- C9: code bug — `Pulse.__init__` stores its angle/phase arguments
unconverted (its docstring claims floats are converted to tensors, but
no conversion happens), so `Pulse.zero()` holds raw Python floats and
`Pulse.zero().clone()` raises `AttributeError` when calling
`self.angle.clone()`: in the embedding the clone fails. -/
theorem c9_zero_clone_fails : Pulse.clone? Pulse.zero = none := rfl

/-- C10: on a sequence with zero repetitions, `get_full_kspace` and
`get_kspace` fail (reading `self.device` indexes `self[0]`) instead of
returning an empty trajectory. -/
theorem c10_empty_sequence_fails :
    Sequence.get_full_kspace ([] : Sequence) = none ∧
    Sequence.get_kspace ([] : Sequence) = none :=
  ⟨rfl, rfl⟩

end MRzero
